import Mathlib

/-
Verification of the resource-synthesis engine of the serverless metric-filter
plugin (src/index.js). The file shallowly embeds the current revision of the
plugin class (and, where the older revision is relevant, its
createAWSMetricResource) as pure Lean functions over an explicit host state.
JavaScript values that may be the undefined value are modelled by JSValue or
Option; JavaScript exceptions (TypeError, ReferenceError) are modelled by
Except String; the mutable CloudFormation resource table is an association
list threaded through the state.
-/

namespace SPMetric

/-- A JavaScript value appearing in an emitted resource field: either the
undefined value or a string. -/
inductive JSValue where
  | undef
  | str (s : String)
deriving DecidableEq

/-- An optional string viewed as a JavaScript value (absent field reads as
undefined). -/
def jsOf : Option String → JSValue
  | none => .undef
  | some s => .str s

/-- Template-literal coercion: interpolating the undefined value into a
template string yields the text undefined. -/
def jsInterp : Option String → String
  | none => "undefined"
  | some s => s

/-- A metric declaration as authored under custom.metrics. Absent optional
fields are none; absent required fields (name, pattern) are also representable
because the source never validates them. -/
structure MetricOption where
  name : Option String
  pattern : Option String
  functions : Option (List String)
  «namespace» : Option String
  value : Option String
  defaultValue : Option String
  staticName : Option Bool
deriving DecidableEq

/-- The Properties object of a resource in the CloudFormation template. The
MetricTransformations entries are kept as association lists of JS object keys,
so that presence or absence of a key (such as DefaultValue) is expressible. -/
structure ResourceProperties where
  FilterPattern : JSValue
  LogGroupName : JSValue
  MetricTransformations : List (List (String × JSValue))
deriving DecidableEq

/-- A resource record in the template. The field __metricOption models the
transient back-reference key attached by createAWSMetricResource (some o when
the key is present, none after delete). Log-group resources are represented in
the same shape with an empty transformation list. -/
structure AWSResource where
  __metricOption : Option MetricOption
  «Type» : String
  DependsOn : String
  Properties : ResourceProperties
deriving DecidableEq

/-- The shared resource table serverless.service.provider.compiledCloudFormationTemplate.Resources. -/
abbrev ResTable := List (String × AWSResource)

/-- The host state visible to the plugin: service and stage identities, the
declaration list, the known function identities, the field this.dynamicNamespace
and the resource table (none when the Resources object is absent or falsy). -/
@[ext]
structure SlsState where
  service : String
  stage : String
  metricOptions : List MetricOption
  functions : List String
  dynamicNamespace : Option String
  resources : Option ResTable
deriving DecidableEq

/-- The naming collaborators supplied by the host provider (external to the
repository): log-group logical id resolution, function-name normalization and
alphanumeric-only key normalization. -/
structure Naming where
  getLogGroupLogicalId : String → String
  normalizeName : String → String
  normalizeNameToAlphaNumericOnly : String → String

/-- First value bound to a key in a JS-object-as-association-list. -/
def assocGet {α : Type} : List (String × α) → String → Option α
  | [], _ => none
  | (k, v) :: rest, key => if k = key then some v else assocGet rest key

/-- JS object property write: replace the value at an existing key in place,
or append a fresh key at the end. -/
def assocSet {α : Type} : List (String × α) → String → α → List (String × α)
  | [], k, v => [(k, v)]
  | (k', v') :: rest, k, v =>
      if k' = k then (k', v) :: rest else (k', v') :: assocSet rest k v

/-- Apply a sequence of property writes from left to right. -/
def applyAll {α : Type} (t : List (String × α)) (writes : List (String × α)) :
    List (String × α) :=
  writes.foldl (fun acc w => assocSet acc w.1 w.2) t

/-- Value of the last write to a key in a write sequence, if any. -/
def lastWrite {α : Type} : List (String × α) → String → Option α
  | [], _ => none
  | (k', v) :: rest, k =>
      match lastWrite rest k with
      | some w => some w
      | none => if k' = k then some v else none

/-- JavaScript Array.prototype.map over a callback that may throw: the first
exception aborts the whole traversal. -/
def exceptMap {α β : Type} (g : α → Except String β) : List α → Except String (List β)
  | [] => .ok []
  | x :: xs =>
    match g x with
    | .error e => .error e
    | .ok y =>
      match exceptMap g xs with
      | .error e => .error e
      | .ok ys => .ok (y :: ys)

/-- Left fold over a callback that may throw. -/
def exceptFoldl {σ α : Type} (g : σ → α → Except String σ) : σ → List α → Except String σ
  | s, [] => .ok s
  | s, x :: xs =>
    match g s x with
    | .error e => .error e
    | .ok s' => exceptFoldl g s' xs

/-- The applicability filter of createMetricFilterResources: truthiness of
option.functions && option.functions.length, then indexOf membership. -/
def appliesTo (option : MetricOption) (functionName : String) : Bool :=
  match option.functions with
  | some fs => if fs.length ≠ 0 then fs.contains functionName else true
  | none => true

/-- createAWSMetricResource of the current revision (src/index.js lines
132-162). Reading the log group from an absent Resources object or an absent
entry throws a TypeError. The expression namespace || dynamicNamespace reads
the bare identifier dynamicNamespace, which is unbound in that scope (the
handler stored the computed default on this.dynamicNamespace), so the default
path throws a ReferenceError. -/
def createAWSMetricResource (naming : Naming) (resources? : Option ResTable)
    (functionName : String) (metricOptions : MetricOption) : Except String AWSResource :=
  match resources? with
  | none => .error "TypeError: Cannot read properties of undefined (reading the log group)"
  | some table =>
    match assocGet table (naming.getLogGroupLogicalId functionName) with
    | none => .error "TypeError: Cannot read properties of undefined (reading Properties)"
    | some logGroup =>
      match metricOptions.«namespace» with
      | none => .error "ReferenceError: dynamicNamespace is not defined"
      | some ns =>
        if ns = "" then .error "ReferenceError: dynamicNamespace is not defined"
        else
          .ok { __metricOption := some metricOptions
              , «Type» := "AWS::Logs::MetricFilter"
              , DependsOn := naming.getLogGroupLogicalId functionName
              , Properties :=
                { FilterPattern := jsOf metricOptions.pattern
                , LogGroupName := logGroup.Properties.LogGroupName
                , MetricTransformations :=
                  [ [ ("MetricName",
                        if metricOptions.staticName.getD false then jsOf metricOptions.name
                        else .str (naming.normalizeName functionName ++ "-"
                                    ++ jsInterp metricOptions.name))
                    , ("MetricNamespace", .str ns)
                    , ("MetricValue", .str (metricOptions.value.getD "1"))
                    , ("DefaultValue", jsOf metricOptions.defaultValue) ] ] } }

/-- createMetricFilterResources (lines 111-123): filter the declarations by
applicability, then build one resource per surviving declaration. -/
def createMetricFilterResources (naming : Naming) (resources? : Option ResTable)
    (metricOptions : List MetricOption) (functionName : String) :
    Except String (String × List AWSResource) :=
  match exceptMap (fun option => createAWSMetricResource naming resources? functionName option)
      (metricOptions.filter (fun option => appliesTo option functionName)) with
  | .error e => .error e
  | .ok resources => .ok (functionName, resources)

/-- Strip the transient __metricOption key (the delete statement in
registerResource). -/
def stripMeta (r : AWSResource) : AWSResource :=
  { r with __metricOption := none }

/-- registerResource (lines 170-177): delete the transient metadata,
initialize the Resources table if absent, then insert at the
alphanumeric-normalized key, overwriting unconditionally. -/
def registerResource (naming : Naming) (st : SlsState) (name : String)
    (resource : AWSResource) : SlsState :=
  let table := st.resources.getD []
  let normalizedName := naming.normalizeNameToAlphaNumericOnly name
  { st with resources := some (assocSet table normalizedName (stripMeta resource)) }

/-- One step of the registration loop in handler (lines 95-104): read the
declaration back from resource.__metricOption (a TypeError if the key were
absent), build the raw key functionName ++ MetricFilter ++ name and register. -/
def registerStep (naming : Naming) (functionName : String) (st : SlsState)
    (resource : AWSResource) : Except String SlsState :=
  match resource.__metricOption with
  | none => .error "TypeError: Cannot read properties of undefined (reading name)"
  | some metricOption =>
    .ok (registerResource naming st
          (functionName ++ "MetricFilter" ++ jsInterp metricOption.name) resource)

/-- Registration of all resources produced for one function. -/
def registerPair (naming : Naming) (st : SlsState) (p : String × List AWSResource) :
    Except String SlsState :=
  exceptFoldl (registerStep naming p.1) st p.2

/-- The assignment this.dynamicNamespace = service/stage performed first in
handler. -/
def setDynamicNamespace (st : SlsState) : SlsState :=
  { st with dynamicNamespace := some (st.service ++ "/" ++ st.stage) }

/-- handler (lines 83-105): set this.dynamicNamespace, build the resources of
every function (the map phase runs to completion before any registration),
then register every produced resource. -/
def handler (naming : Naming) (st : SlsState) : Except String SlsState :=
  match exceptMap (fun functionName =>
      createMetricFilterResources naming (setDynamicNamespace st).resources
        (setDynamicNamespace st).metricOptions functionName)
      (setDynamicNamespace st).functions with
  | .error e => .error e
  | .ok pairs => exceptFoldl (registerPair naming) (setDynamicNamespace st) pairs

/-- createAWSMetricResource of the older revision (lines 309-334 of the
concatenated source), parameterized by the camelcase library function. Its
dynamicNamespace is a local constant, so the default-namespace path works; it
hardcodes MetricValue and ignores staticName and defaultValue. -/
def createAWSMetricResourceV2 (camelcase : String → String) (service stage : String)
    (functionName : String) (metricOptions : MetricOption) : AWSResource :=
  let logGroupName := "/aws/lambda/" ++ service ++ "-" ++ stage ++ "-" ++ functionName
  let dynamicNamespace := service ++ "/" ++ stage
  { __metricOption := some metricOptions
  , «Type» := "AWS::Logs::MetricFilter"
  , DependsOn := camelcase functionName ++ "LogGroup"
  , Properties :=
    { FilterPattern := jsOf metricOptions.pattern
    , LogGroupName := .str logGroupName
    , MetricTransformations :=
      [ [ ("MetricName", .str (functionName ++ "-" ++ jsInterp metricOptions.name))
        , ("MetricNamespace", .str
            (match metricOptions.«namespace» with
             | some ns => if ns = "" then dynamicNamespace else ns
             | none => dynamicNamespace))
        , ("MetricValue", .str "1") ] ] } }

/-- The single MetricTransformations entry of a resource. -/
def metricTransformation (r : AWSResource) : List (String × JSValue) :=
  r.Properties.MetricTransformations.headD []

/-- The write list the handler performs, computed directly from the inputs:
for every function and every applicable declaration whose resource creation
succeeds, the normalized key together with the stripped resource. -/
def handlerWrites (naming : Naming) (resources? : Option ResTable)
    (metricOptions : List MetricOption) (functions : List String) :
    List (String × AWSResource) :=
  functions.flatMap fun functionName =>
    (metricOptions.filter (fun o => appliesTo o functionName)).filterMap fun o =>
      match createAWSMetricResource naming resources? functionName o with
      | .ok r => some (naming.normalizeNameToAlphaNumericOnly
                        (functionName ++ "MetricFilter" ++ jsInterp o.name), stripMeta r)
      | .error _ => none

/-- The state a successful pass produces from a state with table t:
this.dynamicNamespace is set and the handler write list is applied to t. -/
def handlerResult (naming : Naming) (st : SlsState) (t : ResTable) : SlsState :=
  { st with
    dynamicNamespace := some (st.service ++ "/" ++ st.stage),
    resources := some (applyAll t (handlerWrites naming st.resources st.metricOptions st.functions)) }

/-- The write list registered for the resources of one function pair. -/
def pairWrites (naming : Naming) (p : String × List AWSResource) :
    List (String × AWSResource) :=
  p.2.map fun r =>
    (naming.normalizeNameToAlphaNumericOnly
      (p.1 ++ "MetricFilter" ++ jsInterp (r.__metricOption.bind MetricOption.name)),
     stripMeta r)

/-- The resource table of a state, an empty table standing for an absent one. -/
def tableOf (st : SlsState) : ResTable := st.resources.getD []

/-- Extract a successful handler result, with a fallback for the error case. -/
def okOr (e : Except String SlsState) (fallback : SlsState) : SlsState :=
  match e with
  | .ok st => st
  | .error _ => fallback

/-- Extract a successfully created resource, with a fallback. -/
def okResOr (e : Except String AWSResource) (fallback : AWSResource) : AWSResource :=
  match e with
  | .ok r => r
  | .error _ => fallback

/-- The error message of a failed pass, if it failed. -/
def errOf (e : Except String SlsState) : Option String :=
  match e with
  | .error s => some s
  | .ok _ => none

/-- The FilterPattern of the resource registered at a key by a successful
pass, when both exist. -/
def patternAt (out : Except String SlsState) (key : String) : Option JSValue :=
  match out with
  | .error _ => none
  | .ok st => (assocGet (tableOf st) key).map (fun r => r.Properties.FilterPattern)

/-- The MetricNamespace emitted by a successful resource creation. -/
def namespaceAt (e : Except String AWSResource) : Option JSValue :=
  match e with
  | .ok r => assocGet (metricTransformation r) "MetricNamespace"
  | .error _ => none

/-- Whether running the pass twice from a state leaves the resource table of
the first run unchanged; none when either run fails. -/
def idempotenceCheck (naming : Naming) (st : SlsState) : Option Bool :=
  match handler naming st with
  | .error _ => none
  | .ok st1 =>
    match handler naming st1 with
    | .error _ => none
    | .ok st2 => some (decide (st2.resources = st1.resources))

/-- A simple concrete instantiation of the host naming collaborators, used for
concrete evaluations: logical ids by suffixing LogGroup, identity
normalizations (the spec allows the identity transform). -/
def simpleNaming : Naming :=
  { getLogGroupLogicalId := fun f => f ++ "LogGroup"
  , normalizeName := fun f => f
  , normalizeNameToAlphaNumericOnly := fun f => f }

/-- A log-group resource carrying a log group name, as found in the template
before the plugin runs. -/
def logGroupResource (n : String) : AWSResource :=
  { __metricOption := none
  , «Type» := "AWS::Logs::LogGroup"
  , DependsOn := ""
  , Properties :=
    { FilterPattern := .undef, LogGroupName := .str n, MetricTransformations := [] } }

/-- A well-formed declaration with an explicit namespace (the only kind the
current revision can synthesize without throwing). -/
def baseOption : MetricOption :=
  { name := some "err", pattern := some "ERRORPATTERN", functions := none
  , «namespace» := some "ns", value := none, defaultValue := none, staticName := none }

/-- A template that already contains the log groups of the two demo functions. -/
def stdTable : ResTable :=
  [("getBarLogGroup", logGroupResource "lgBar"), ("getFooLogGroup", logGroupResource "lgFoo")]

/-- The demo host state: service svc, stage dev, two functions, one
declaration. -/
def stdSt : SlsState :=
  { service := "svc", stage := "dev", metricOptions := [baseOption]
  , functions := ["getBar", "getFoo"], dynamicNamespace := none
  , resources := some stdTable }

/-- The state reached by one successful pass over the demo state. -/
def stdRun1 : SlsState := okOr (handler simpleNaming stdSt) stdSt

/-- The resource created for getBar from the demo declaration. -/
def demoResBar : AWSResource :=
  okResOr (createAWSMetricResource simpleNaming (some stdTable) "getBar" baseOption)
    (logGroupResource "fallback")

/-- The resource created for getFoo from the demo declaration. -/
def demoResFoo : AWSResource :=
  okResOr (createAWSMetricResource simpleNaming (some stdTable) "getFoo" baseOption)
    (logGroupResource "fallback")

/-- The demo declaration with its namespace removed (the documented default
case). -/
def c1Option : MetricOption := { baseOption with «namespace» := none }

/-- The demo state with the namespace-less declaration. -/
def c1St : SlsState := { stdSt with metricOptions := [c1Option] }

/-- A declaration missing both required fields, with a namespace so that the
reference-error path is not taken. -/
def c3Option : MetricOption :=
  { name := none, pattern := none, functions := none
  , «namespace» := some "ns", value := none, defaultValue := none, staticName := none }

/-- A declaration missing only its pattern. -/
def c3PatternlessOption : MetricOption := { c3Option with name := some "foo" }

/-- The demo state with the patternless declaration. -/
def c3St : SlsState := { stdSt with metricOptions := [c3PatternlessOption] }

/-- The resource the patternless declaration yields for getFoo. -/
def c3Res : AWSResource :=
  okResOr (createAWSMetricResource simpleNaming (some stdTable) "getFoo" c3Option)
    (logGroupResource "fallback")

/-- The demo declaration restricted to getBar. -/
def c4Opt : MetricOption := { baseOption with functions := some ["getBar"] }

/-- The pair produced by createMetricFilterResources for getBar under the
restricted declaration. -/
def c4Pair : String × List AWSResource :=
  match createMetricFilterResources simpleNaming (some stdTable) [c4Opt] "getBar" with
  | .ok p => p
  | .error _ => ("", [])

/-- The demo declaration with an explicit value. -/
def c7Option : MetricOption := { baseOption with value := some "5" }

/-- The resource created from the explicit-value declaration. -/
def c7Res : AWSResource :=
  okResOr (createAWSMetricResource simpleNaming (some stdTable) "getBar" c7Option)
    (logGroupResource "fallback")

/-- An adversarial naming collaborator for which the metric key of g1 shadows
the log-group logical id that g2 resolves to. -/
def c8Naming : Naming :=
  { getLogGroupLogicalId := fun f => if f = "g2" then "g1MetricFilterm" else f ++ "LogGroup"
  , normalizeName := fun f => f
  , normalizeNameToAlphaNumericOnly := fun f => f }

/-- The declaration of the shadowing scenario. -/
def c8Option : MetricOption := { baseOption with name := some "m" }

/-- The state of the shadowing scenario: the table entry g1MetricFilterm is
the log group g2 resolves to, and it is also the key the pass registers the g1
filter under. -/
def c8St : SlsState :=
  { service := "svc", stage := "dev", metricOptions := [c8Option]
  , functions := ["g1", "g2"], dynamicNamespace := none
  , resources := some [("g1LogGroup", logGroupResource "lgA")
                      , ("g1MetricFilterm", logGroupResource "lgB")] }

/-- The demo state with no Resources object at all. -/
def emptySt : SlsState := { stdSt with resources := none }

section AssocLemmas

variable {α : Type}

theorem assocGet_eq_none_of_not_mem {t : List (String × α)} {k : String}
    (h : k ∉ t.map Prod.fst) : assocGet t k = none := by
  induction t with
  | nil => rfl
  | cons p rest ih =>
    simp only [List.map_cons, List.mem_cons] at h
    push_neg at h
    simp only [assocGet]
    rw [if_neg (fun hk => h.1 hk.symm)]
    exact ih h.2

theorem assocGet_assocSet : ∀ (t : List (String × α)) (k : String) (v : α) (k' : String),
    assocGet (assocSet t k v) k' = if k' = k then some v else assocGet t k'
  | [], k, v, k' => by
    simp only [assocSet, assocGet]
    by_cases h1 : k = k'
    · rw [if_pos h1, if_pos h1.symm]
    · rw [if_neg h1, if_neg (fun hh : k' = k => h1 hh.symm)]
  | (a, b) :: rest, k, v, k' => by
    by_cases hak : a = k
    · simp only [assocSet, if_pos hak, assocGet]
      by_cases h1 : a = k'
      · rw [if_pos h1, if_pos (h1.symm.trans hak)]
      · rw [if_neg h1, if_neg (fun hh : k' = k => h1 (hak.trans hh.symm)), if_neg h1]
    · simp only [assocSet, if_neg hak, assocGet]
      by_cases h1 : a = k'
      · rw [if_pos h1, if_neg (fun hh : k' = k => hak (h1.trans hh)), if_pos h1]
      · rw [if_neg h1, assocGet_assocSet rest k v k', if_neg h1]

theorem keys_assocSet : ∀ (t : List (String × α)) (k : String) (v : α),
    (assocSet t k v).map Prod.fst =
      if k ∈ t.map Prod.fst then t.map Prod.fst else t.map Prod.fst ++ [k]
  | [], k, v => by simp [assocSet]
  | (a, b) :: rest, k, v => by
    by_cases hak : a = k
    · subst hak
      simp [assocSet]
    · simp only [assocSet, if_neg hak, List.map_cons]
      rw [keys_assocSet rest k v]
      by_cases hmem : k ∈ rest.map Prod.fst
      · rw [if_pos hmem, if_pos (List.mem_cons_of_mem a hmem)]
      · rw [if_neg hmem, if_neg (fun hc => ?_)]
        · simp
        · rcases List.mem_cons.mp hc with h | h
          · exact hak h.symm
          · exact hmem h

theorem nodup_keys_assocSet {t : List (String × α)} {k : String} {v : α}
    (h : (t.map Prod.fst).Nodup) : ((assocSet t k v).map Prod.fst).Nodup := by
  rw [keys_assocSet]
  by_cases hmem : k ∈ t.map Prod.fst
  · simpa [hmem]
  · simpa [hmem, List.nodup_append]

theorem applyAll_nil (t : List (String × α)) : applyAll t [] = t := rfl

theorem applyAll_cons (t : List (String × α)) (w : String × α) (ws : List (String × α)) :
    applyAll t (w :: ws) = applyAll (assocSet t w.1 w.2) ws := rfl

theorem applyAll_append (t : List (String × α)) (w1 w2 : List (String × α)) :
    applyAll t (w1 ++ w2) = applyAll (applyAll t w1) w2 := by
  simp [applyAll, List.foldl_append]

theorem assocGet_applyAll (W : List (String × α)) :
    ∀ (t : List (String × α)) (k : String),
      assocGet (applyAll t W) k =
        match lastWrite W k with
        | some v => some v
        | none => assocGet t k := by
  induction W with
  | nil => intro t k; rfl
  | cons w ws ih =>
    intro t k
    obtain ⟨kw, vw⟩ := w
    rw [applyAll_cons, ih]
    simp only [lastWrite]
    cases hlw : lastWrite ws k with
    | some v => rfl
    | none =>
      simp only [assocGet_assocSet]
      by_cases hk : k = kw
      · subst hk; simp
      · rw [if_neg hk, if_neg (fun h : kw = k => hk h.symm)]

theorem lastWrite_eq_none_of_not_mem {W : List (String × α)} {k : String}
    (h : k ∉ W.map Prod.fst) : lastWrite W k = none := by
  induction W with
  | nil => rfl
  | cons w ws ih =>
    simp only [List.map_cons, List.mem_cons] at h
    push_neg at h
    simp only [lastWrite, ih h.2]
    rw [if_neg (fun hk => h.1 hk.symm)]

theorem lastWrite_mem {W : List (String × α)} {k : String} {v : α}
    (h : lastWrite W k = some v) : (k, v) ∈ W := by
  induction W with
  | nil => exact absurd h (by simp [lastWrite])
  | cons w ws ih =>
    obtain ⟨kw, vw⟩ := w
    simp only [lastWrite] at h
    cases hlw : lastWrite ws k with
    | some u =>
      rw [hlw] at h
      cases h
      exact List.mem_cons_of_mem _ (ih hlw)
    | none =>
      rw [hlw] at h
      by_cases hk : kw = k
      · rw [if_pos hk] at h
        cases h
        subst hk
        exact List.mem_cons_self _ _
      · rw [if_neg hk] at h
        cases h

theorem mem_keys_assocSet_of_mem {t : List (String × α)} {k k' : String} {v : α}
    (h : k ∈ t.map Prod.fst) : k ∈ (assocSet t k' v).map Prod.fst := by
  rw [keys_assocSet]
  by_cases hmem : k' ∈ t.map Prod.fst
  · rw [if_pos hmem]; exact h
  · rw [if_neg hmem]; exact List.mem_append_left _ h

theorem mem_keys_assocSet_self (t : List (String × α)) (k : String) (v : α) :
    k ∈ (assocSet t k v).map Prod.fst := by
  rw [keys_assocSet]
  by_cases hmem : k ∈ t.map Prod.fst
  · rw [if_pos hmem]; exact hmem
  · rw [if_neg hmem]; exact List.mem_append_right _ (by simp)

theorem mem_keys_applyAll_of_mem {W t : List (String × α)} {k : String}
    (h : k ∈ t.map Prod.fst) : k ∈ (applyAll t W).map Prod.fst := by
  induction W generalizing t with
  | nil => exact h
  | cons w ws ih => exact ih (mem_keys_assocSet_of_mem h)

theorem mem_keys_applyAll_of_write {W : List (String × α)} {k : String}
    (h : k ∈ W.map Prod.fst) : ∀ t, k ∈ (applyAll t W).map Prod.fst := by
  induction W with
  | nil => simp at h
  | cons w ws ih =>
    intro t
    rw [applyAll_cons]
    simp only [List.map_cons, List.mem_cons] at h
    rcases h with h | h
    · subst h
      exact mem_keys_applyAll_of_mem (mem_keys_assocSet_self t w.1 w.2)
    · exact ih h (assocSet t w.1 w.2)

theorem keys_applyAll_of_subset {W : List (String × α)} :
    ∀ {t : List (String × α)}, (∀ k ∈ W.map Prod.fst, k ∈ t.map Prod.fst) →
      (applyAll t W).map Prod.fst = t.map Prod.fst := by
  induction W with
  | nil => intro t _; rfl
  | cons w ws ih =>
    intro t h
    have hw : w.1 ∈ t.map Prod.fst := h w.1 (by simp)
    rw [applyAll_cons, ih, keys_assocSet, if_pos hw]
    intro k hk
    rw [keys_assocSet, if_pos hw]
    exact h k (by simp [hk])

theorem nodup_keys_applyAll {W : List (String × α)} :
    ∀ {t : List (String × α)}, (t.map Prod.fst).Nodup →
      ((applyAll t W).map Prod.fst).Nodup := by
  induction W with
  | nil => intro t h; exact h
  | cons w ws ih => intro t h; exact ih (nodup_keys_assocSet h)

theorem assoc_ext : ∀ (t1 t2 : List (String × α)),
    t1.map Prod.fst = t2.map Prod.fst → (t1.map Prod.fst).Nodup →
    (∀ k, assocGet t1 k = assocGet t2 k) → t1 = t2 := by
  intro t1
  induction t1 with
  | nil =>
    intro t2 hkeys _ _
    cases t2 with
    | nil => rfl
    | cons p rest => simp at hkeys
  | cons p rest ih =>
    intro t2 hkeys hnd hget
    cases t2 with
    | nil => simp at hkeys
    | cons q rest2 =>
      obtain ⟨a, b⟩ := p
      obtain ⟨c, d⟩ := q
      simp only [List.map_cons, List.cons.injEq] at hkeys
      obtain ⟨hac, htl⟩ := hkeys
      subst hac
      have hbd : b = d := by
        have := hget a
        simpa [assocGet] using this
      subst hbd
      simp only [List.map_cons, List.nodup_cons] at hnd
      have : rest = rest2 := by
        refine ih rest2 htl hnd.2 (fun k => ?_)
        by_cases hk : k = a
        · subst hk
          rw [assocGet_eq_none_of_not_mem hnd.1, assocGet_eq_none_of_not_mem]
          rw [← htl]
          exact hnd.1
        · have := hget k
          simp only [assocGet, if_neg (fun h : a = k => hk h.symm)] at this
          exact this
      rw [this]

theorem applyAll_idem {t W : List (String × α)} (hnd : (t.map Prod.fst).Nodup) :
    applyAll (applyAll t W) W = applyAll t W := by
  refine assoc_ext _ _ ?_ (nodup_keys_applyAll (nodup_keys_applyAll hnd)) (fun k => ?_)
  · exact keys_applyAll_of_subset (fun k hk => mem_keys_applyAll_of_write hk t)
  · rw [assocGet_applyAll, assocGet_applyAll]
    cases hlw : lastWrite W k with
    | some v => rfl
    | none => rfl

end AssocLemmas

section SynthLemmas

/-- Inversion of a successful resource creation: the table and log group were
present, the declared namespace was truthy, and the resource is the literal of
lines 144-160 of the source. -/
theorem create_ok_inv {naming : Naming} {resources? : Option ResTable} {f : String}
    {d : MetricOption} {r : AWSResource}
    (h : createAWSMetricResource naming resources? f d = .ok r) :
    ∃ table logGroup ns, resources? = some table
      ∧ assocGet table (naming.getLogGroupLogicalId f) = some logGroup
      ∧ d.«namespace» = some ns ∧ ns ≠ ""
      ∧ r = { __metricOption := some d
            , «Type» := "AWS::Logs::MetricFilter"
            , DependsOn := naming.getLogGroupLogicalId f
            , Properties :=
              { FilterPattern := jsOf d.pattern
              , LogGroupName := logGroup.Properties.LogGroupName
              , MetricTransformations :=
                [ [ ("MetricName", if d.staticName.getD false then jsOf d.name
                      else .str (naming.normalizeName f ++ "-" ++ jsInterp d.name))
                  , ("MetricNamespace", .str ns)
                  , ("MetricValue", .str (d.value.getD "1"))
                  , ("DefaultValue", jsOf d.defaultValue) ] ] } } := by
  unfold createAWSMetricResource at h
  split at h
  · exact Except.noConfusion h
  · split at h
    · exact Except.noConfusion h
    · split at h
      · exact Except.noConfusion h
      · split at h
        · exact Except.noConfusion h
        · exact ⟨_, _, _, rfl, by assumption, by assumption, by assumption,
            (Except.ok.inj h).symm⟩

/-- A created resource carries its declaration as transient metadata. -/
theorem create_ok_meta {naming : Naming} {resources? : Option ResTable} {f : String}
    {d : MetricOption} {r : AWSResource}
    (h : createAWSMetricResource naming resources? f d = .ok r) :
    r.__metricOption = some d := by
  obtain ⟨table, logGroup, ns, _, _, _, _, hr⟩ := create_ok_inv h
  rw [hr]

/-- Resource creation reads the table only at the log-group logical id of its
function. -/
theorem create_congr {naming : Naming} {t1 t2 : ResTable} {f : String} (d : MetricOption)
    (h : assocGet t1 (naming.getLogGroupLogicalId f)
          = assocGet t2 (naming.getLogGroupLogicalId f)) :
    createAWSMetricResource naming (some t1) f d
      = createAWSMetricResource naming (some t2) f d := by
  simp only [createAWSMetricResource]
  rw [h]

/-- Creation with an absent Resources object always throws. -/
theorem create_none_error (naming : Naming) (f : String) (d : MetricOption) :
    createAWSMetricResource naming none f d
      = .error "TypeError: Cannot read properties of undefined (reading the log group)" := rfl

theorem exceptMap_ok_length {α β : Type} {g : α → Except String β} :
    ∀ {l : List α} {ys : List β}, exceptMap g l = .ok ys → ys.length = l.length := by
  intro l
  induction l with
  | nil =>
    intro ys h
    simp only [exceptMap] at h
    injection h with h'
    rw [← h']
    rfl
  | cons x xs ih =>
    intro ys h
    simp only [exceptMap] at h
    cases hg : g x with
    | error e => rw [hg] at h; exact Except.noConfusion h
    | ok y =>
      rw [hg] at h
      cases hm : exceptMap g xs with
      | error e => rw [hm] at h; exact Except.noConfusion h
      | ok ys' =>
        rw [hm] at h
        have h2 : (Except.ok (y :: ys') : Except String (List β)) = .ok ys := h
        injection h2 with h3
        rw [← h3]
        simp [ih hm]

theorem exceptMap_ok_mem {α β : Type} {g : α → Except String β} :
    ∀ {l : List α} {ys : List β}, exceptMap g l = .ok ys →
      ∀ y ∈ ys, ∃ x ∈ l, g x = .ok y := by
  intro l
  induction l with
  | nil =>
    intro ys h y hy
    simp only [exceptMap] at h
    injection h with h'
    rw [← h'] at hy
    simp at hy
  | cons x xs ih =>
    intro ys h y hy
    simp only [exceptMap] at h
    cases hg : g x with
    | error e => rw [hg] at h; exact Except.noConfusion h
    | ok y0 =>
      rw [hg] at h
      cases hm : exceptMap g xs with
      | error e => rw [hm] at h; exact Except.noConfusion h
      | ok ys' =>
        rw [hm] at h
        have h2 : (Except.ok (y0 :: ys') : Except String (List β)) = .ok ys := h
        injection h2 with h3
        rw [← h3] at hy
        rcases List.mem_cons.mp hy with hy | hy
        · subst hy
          exact ⟨x, List.mem_cons_self x xs, hg⟩
        · obtain ⟨x', hx', hgx'⟩ := ih hm y hy
          exact ⟨x', List.mem_cons_of_mem x hx', hgx'⟩

theorem exceptMap_congr {α β : Type} {g1 g2 : α → Except String β} :
    ∀ {l : List α}, (∀ x ∈ l, g1 x = g2 x) → exceptMap g1 l = exceptMap g2 l := by
  intro l
  induction l with
  | nil => intro _; rfl
  | cons x xs ih =>
    intro h
    simp only [exceptMap]
    rw [h x (List.mem_cons_self x xs), ih (fun x' hx' => h x' (List.mem_cons_of_mem x hx'))]

/-- Inversion of createMetricFilterResources: the pair carries the function
name and the mapped creations of the applicable declarations. -/
theorem createMFR_ok_inv {naming : Naming} {resources? : Option ResTable}
    {opts : List MetricOption} {f : String} {p : String × List AWSResource}
    (h : createMetricFilterResources naming resources? opts f = .ok p) :
    ∃ rs, p = (f, rs)
      ∧ exceptMap (fun o => createAWSMetricResource naming resources? f o)
          (opts.filter (fun o => appliesTo o f)) = .ok rs := by
  unfold createMetricFilterResources at h
  cases hm : exceptMap (fun o => createAWSMetricResource naming resources? f o)
      (opts.filter (fun o => appliesTo o f)) with
  | error e => rw [hm] at h; exact Except.noConfusion h
  | ok rs =>
    rw [hm] at h
    exact ⟨rs, (Except.ok.inj h).symm, rfl⟩

/-- registerResource as a record update. -/
theorem registerResource_eq (naming : Naming) (st : SlsState) (name : String)
    (resource : AWSResource) :
    registerResource naming st name resource
      = { st with resources := some (assocSet (st.resources.getD [])
            (naming.normalizeNameToAlphaNumericOnly name) (stripMeta resource)) } := rfl

/-- Collapsing two successive updates of the resources field. -/
theorem update_update (st : SlsState) (A X : Option ResTable) :
    ({ { st with resources := A } with resources := X } : SlsState)
      = { st with resources := X } := rfl

/-- A state whose resources field is rewritten to its own value is unchanged. -/
theorem update_self {st : SlsState} {t : ResTable} (ht : st.resources = some t) :
    ({ st with resources := some t } : SlsState) = st := by
  rw [← ht]

/-- Registering the resources of one function applies the corresponding write
sequence to the table. -/
theorem regFold_ok (naming : Naming) (fname : String) :
    ∀ (rs : List AWSResource) (st : SlsState) (t : ResTable), st.resources = some t →
      (∀ r ∈ rs, (r.__metricOption).isSome = true) →
      exceptFoldl (registerStep naming fname) st rs
        = .ok { st with resources := some (applyAll t (pairWrites naming (fname, rs))) } := by
  intro rs
  induction rs with
  | nil =>
    intro st t ht _
    show Except.ok st = Except.ok ({ st with resources := some t } : SlsState)
    rw [update_self ht]
  | cons r rs ih =>
    intro st t ht hmeta
    have hr := hmeta r (List.mem_cons_self r rs)
    cases hro : r.__metricOption with
    | none => rw [hro] at hr; exact absurd hr (by simp)
    | some o =>
      simp only [exceptFoldl, registerStep, hro]
      rw [registerResource_eq, ht]
      rw [ih _ (assocSet t (naming.normalizeNameToAlphaNumericOnly
            (fname ++ "MetricFilter" ++ jsInterp o.name)) (stripMeta r))
          rfl (fun r' hr' => hmeta r' (List.mem_cons_of_mem r hr'))]
      rw [update_update]
      simp only [pairWrites, List.map_cons, hro, Option.some_bind, applyAll_cons]

/-- Registering all pairs applies the concatenated write sequences. -/
theorem regPhase_ok (naming : Naming) :
    ∀ (pairs : List (String × List AWSResource)) (st : SlsState) (t : ResTable),
      st.resources = some t →
      (∀ p ∈ pairs, ∀ r ∈ p.2, (r.__metricOption).isSome = true) →
      exceptFoldl (registerPair naming) st pairs
        = .ok { st with resources := some (applyAll t (pairs.flatMap (pairWrites naming))) } := by
  intro pairs
  induction pairs with
  | nil =>
    intro st t ht _
    show Except.ok st = Except.ok ({ st with resources := some t } : SlsState)
    rw [update_self ht]
  | cons p ps ih =>
    intro st t ht hmeta
    obtain ⟨fname, rs⟩ := p
    have h1 : exceptFoldl (registerPair naming) st ((fname, rs) :: ps)
        = exceptFoldl (registerPair naming)
            { st with resources := some (applyAll t (pairWrites naming (fname, rs))) } ps := by
      simp only [exceptFoldl, registerPair]
      rw [regFold_ok naming fname rs st t ht
          (fun r hr => hmeta (fname, rs) (List.mem_cons_self _ _) r hr)]
    rw [h1, ih { st with resources := some (applyAll t (pairWrites naming (fname, rs))) }
        (applyAll t (pairWrites naming (fname, rs))) rfl
        (fun p' hp' => hmeta p' (List.mem_cons_of_mem _ hp'))]
    simp only [List.flatMap_cons, applyAll_append]

/-- Every resource in a successful map phase still carries its metadata. -/
theorem pairs_meta {naming : Naming} {resources? : Option ResTable}
    {opts : List MetricOption} {fns : List String} {pairs : List (String × List AWSResource)}
    (h : exceptMap (fun f => createMetricFilterResources naming resources? opts f) fns
          = .ok pairs) :
    ∀ p ∈ pairs, ∀ r ∈ p.2, (r.__metricOption).isSome = true := by
  intro p hp r hr
  obtain ⟨f, _, hf⟩ := exceptMap_ok_mem h p hp
  obtain ⟨rs, hprs, hm⟩ := createMFR_ok_inv hf
  subst hprs
  obtain ⟨o, _, ho⟩ := exceptMap_ok_mem hm r hr
  rw [create_ok_meta ho]
  rfl

/-- The write list of one successful pair is the filterMap-form write list of
its function. -/
theorem pairWrites_eq {naming : Naming} {resources? : Option ResTable}
    {opts : List MetricOption} {f : String} {p : String × List AWSResource}
    (h : createMetricFilterResources naming resources? opts f = .ok p) :
    pairWrites naming p
      = (opts.filter (fun o => appliesTo o f)).filterMap fun o =>
          match createAWSMetricResource naming resources? f o with
          | .ok r => some (naming.normalizeNameToAlphaNumericOnly
                            (f ++ "MetricFilter" ++ jsInterp o.name), stripMeta r)
          | .error _ => none := by
  obtain ⟨rs, hprs, hm⟩ := createMFR_ok_inv h
  subst hprs
  clear h
  generalize opts.filter (fun o => appliesTo o f) = l at hm ⊢
  induction l generalizing rs with
  | nil =>
    simp only [exceptMap] at hm
    injection hm with h'
    subst h'
    rfl
  | cons o os ih =>
    simp only [exceptMap] at hm
    cases hg : createAWSMetricResource naming resources? f o with
    | error e => rw [hg] at hm; exact Except.noConfusion hm
    | ok r =>
      rw [hg] at hm
      cases hrest : exceptMap (fun o => createAWSMetricResource naming resources? f o) os with
      | error e => rw [hrest] at hm; exact Except.noConfusion hm
      | ok rs' =>
        rw [hrest] at hm
        have h2 : (Except.ok (r :: rs') : Except String (List AWSResource)) = .ok rs := hm
        injection h2 with h3
        subst h3
        simp only [pairWrites, List.map_cons, List.filterMap_cons, hg]
        rw [create_ok_meta hg]
        simp only [Option.some_bind]
        have hih := ih rs' hrest
        simp only [pairWrites] at hih
        rw [hih]

/-- The concatenated writes of a successful map phase are the handler write
list. -/
theorem phaseWrites_eq {naming : Naming} {resources? : Option ResTable}
    {opts : List MetricOption} :
    ∀ {fns : List String} {pairs : List (String × List AWSResource)},
      exceptMap (fun f => createMetricFilterResources naming resources? opts f) fns
        = .ok pairs →
      pairs.flatMap (pairWrites naming) = handlerWrites naming resources? opts fns := by
  intro fns
  induction fns with
  | nil =>
    intro pairs h
    simp only [exceptMap] at h
    injection h with h'
    subst h'
    rfl
  | cons f fs ih =>
    intro pairs h
    simp only [exceptMap] at h
    cases hg : createMetricFilterResources naming resources? opts f with
    | error e => rw [hg] at h; exact Except.noConfusion h
    | ok p =>
      rw [hg] at h
      cases hrest : exceptMap (fun f => createMetricFilterResources naming resources? opts f) fs with
      | error e => rw [hrest] at h; exact Except.noConfusion h
      | ok ps =>
        rw [hrest] at h
        have h2 : (Except.ok (p :: ps) : Except String (List (String × List AWSResource)))
            = .ok pairs := h
        injection h2 with h3
        subst h3
        simp only [List.flatMap_cons, handlerWrites]
        rw [pairWrites_eq hg, ih hrest]
        rfl

/-- Forward run of the handler over a present table: the pass succeeds and
applies exactly the handler write list to the table. -/
theorem handler_of_pairs {naming : Naming} {st : SlsState} {t : ResTable}
    {pairs : List (String × List AWSResource)}
    (ht : st.resources = some t)
    (hm : exceptMap (fun f => createMetricFilterResources naming st.resources
            st.metricOptions f) st.functions = .ok pairs) :
    handler naming st = .ok (handlerResult naming st t) := by
  unfold handler handlerResult
  have hm' : exceptMap (fun f => createMetricFilterResources naming
      (setDynamicNamespace st).resources (setDynamicNamespace st).metricOptions f)
      (setDynamicNamespace st).functions = .ok pairs := hm
  rw [hm']
  have h2 : (setDynamicNamespace st).resources = some t := ht
  have h3 := regPhase_ok naming pairs (setDynamicNamespace st) t h2 (pairs_meta hm)
  rw [phaseWrites_eq hm] at h3
  exact h3

/-- Inversion of a successful pass over a present table. -/
theorem handler_ok_some {naming : Naming} {st st' : SlsState} {t : ResTable}
    (ht : st.resources = some t) (h : handler naming st = .ok st') :
    ∃ pairs, exceptMap (fun f => createMetricFilterResources naming st.resources
        st.metricOptions f) st.functions = .ok pairs
      ∧ st' = handlerResult naming st t := by
  cases hm : exceptMap (fun f => createMetricFilterResources naming st.resources
      st.metricOptions f) st.functions with
  | error e =>
    have herr : handler naming st = .error e := by
      unfold handler
      have hm' : exceptMap (fun f => createMetricFilterResources naming
          (setDynamicNamespace st).resources (setDynamicNamespace st).metricOptions f)
          (setDynamicNamespace st).functions = .error e := hm
      rw [hm']
    rw [herr] at h
    exact Except.noConfusion h
  | ok pairs =>
    have hfwd := handler_of_pairs ht hm
    rw [hfwd] at h
    exact ⟨pairs, rfl, (Except.ok.inj h).symm⟩

/-- With an absent table, a declaration applicable to some function makes
createMetricFilterResources throw, so a successful call yields no resource. -/
theorem createMFR_none_ok {naming : Naming} {opts : List MetricOption} {f : String}
    {p : String × List AWSResource}
    (h : createMetricFilterResources naming none opts f = .ok p) : p.2 = [] := by
  obtain ⟨rs, hprs, hm⟩ := createMFR_ok_inv h
  subst hprs
  cases hfil : opts.filter (fun o => appliesTo o f) with
  | nil =>
    rw [hfil] at hm
    simp only [exceptMap] at hm
    injection hm with h2
    rw [← h2]
  | cons o os =>
    rw [hfil] at hm
    simp only [exceptMap, createAWSMetricResource] at hm
    exact Except.noConfusion hm

/-- Registering pairs that carry no resources leaves the state unchanged. -/
theorem regPair_nil (naming : Naming) :
    ∀ (pairs : List (String × List AWSResource)) (st : SlsState),
      (∀ p ∈ pairs, p.2 = ([] : List AWSResource)) →
      exceptFoldl (registerPair naming) st pairs = .ok st := by
  intro pairs
  induction pairs with
  | nil => intro st _; rfl
  | cons p ps ih =>
    intro st hp
    have h2 : registerPair naming st p = .ok st := by
      unfold registerPair
      rw [hp p (List.mem_cons_self _ _)]
      rfl
    simp only [exceptFoldl]
    rw [h2]
    exact ih st (fun p' hp' => hp p' (List.mem_cons_of_mem _ hp'))

/-- Inversion of a successful pass over an absent table: nothing was
registered; only this.dynamicNamespace was set. -/
theorem handler_ok_none {naming : Naming} {st st' : SlsState}
    (ht : st.resources = none) (h : handler naming st = .ok st') :
    st' = setDynamicNamespace st := by
  cases hm : exceptMap (fun f => createMetricFilterResources naming st.resources
      st.metricOptions f) st.functions with
  | error e =>
    have herr : handler naming st = .error e := by
      unfold handler
      have hm' : exceptMap (fun f => createMetricFilterResources naming
          (setDynamicNamespace st).resources (setDynamicNamespace st).metricOptions f)
          (setDynamicNamespace st).functions = .error e := hm
      rw [hm']
    rw [herr] at h
    exact Except.noConfusion h
  | ok pairs =>
    have hnil : ∀ p ∈ pairs, p.2 = ([] : List AWSResource) := by
      intro p hp
      obtain ⟨f, _, hf⟩ := exceptMap_ok_mem hm p hp
      rw [ht] at hf
      exact createMFR_none_ok hf
    have hrun : handler naming st = .ok (setDynamicNamespace st) := by
      unfold handler
      have hm' : exceptMap (fun f => createMetricFilterResources naming
          (setDynamicNamespace st).resources (setDynamicNamespace st).metricOptions f)
          (setDynamicNamespace st).functions = .ok pairs := hm
      rw [hm']
      exact regPair_nil naming pairs (setDynamicNamespace st) hnil
    rw [hrun] at h
    exact (Except.ok.inj h).symm

/-- createMetricFilterResources reads the table only at the log-group logical
id of its function. -/
theorem createMFR_congr {naming : Naming} {t1 t2 : ResTable} {opts : List MetricOption}
    {f : String}
    (h : assocGet t1 (naming.getLogGroupLogicalId f)
          = assocGet t2 (naming.getLogGroupLogicalId f)) :
    createMetricFilterResources naming (some t1) opts f
      = createMetricFilterResources naming (some t2) opts f := by
  unfold createMetricFilterResources
  rw [exceptMap_congr (fun o _ => create_congr o h)]

/-- The handler write list reads the table only at the log-group logical ids
of the listed functions. -/
theorem handlerWrites_congr {naming : Naming} {t1 t2 : ResTable} {opts : List MetricOption} :
    ∀ {fns : List String},
      (∀ f ∈ fns, assocGet t1 (naming.getLogGroupLogicalId f)
          = assocGet t2 (naming.getLogGroupLogicalId f)) →
      handlerWrites naming (some t1) opts fns = handlerWrites naming (some t2) opts fns := by
  intro fns
  induction fns with
  | nil => intro _; rfl
  | cons f fs ih =>
    intro h
    simp only [handlerWrites, List.flatMap_cons]
    have hc : ∀ o : MetricOption, createAWSMetricResource naming (some t1) f o
        = createAWSMetricResource naming (some t2) f o :=
      fun o => create_congr o (h f (List.mem_cons_self _ _))
    have hih := ih (fun f' hf' => h f' (List.mem_cons_of_mem _ hf'))
    simp only [handlerWrites] at hih
    rw [hih]
    have hfun : (fun o => match createAWSMetricResource naming (some t1) f o with
        | .ok r => some (naming.normalizeNameToAlphaNumericOnly
            (f ++ "MetricFilter" ++ jsInterp o.name), stripMeta r)
        | .error _ => none)
      = (fun o => match createAWSMetricResource naming (some t2) f o with
        | .ok r => some (naming.normalizeNameToAlphaNumericOnly
            (f ++ "MetricFilter" ++ jsInterp o.name), stripMeta r)
        | .error _ => none) := by
      funext o
      rw [hc o]
    rw [hfun]

/-- Every value in the handler write list has its transient metadata
stripped. -/
theorem handlerWrites_mem_stripped {naming : Naming} {resources? : Option ResTable}
    {opts : List MetricOption} {fns : List String} {k : String} {v : AWSResource}
    (h : (k, v) ∈ handlerWrites naming resources? opts fns) : v.__metricOption = none := by
  simp only [handlerWrites, List.mem_flatMap, List.mem_filterMap] at h
  obtain ⟨f, hf, o, ho, hmatch⟩ := h
  cases hg : createAWSMetricResource naming resources? f o with
  | error e => rw [hg] at hmatch; exact Option.noConfusion hmatch
  | ok r =>
    rw [hg] at hmatch
    have h2 : some (naming.normalizeNameToAlphaNumericOnly
        (f ++ "MetricFilter" ++ jsInterp o.name), stripMeta r) = some (k, v) := hmatch
    injection h2 with h3
    injection h3 with h4 h5
    rw [← h5]
    rfl

/-- Cancellation of a common suffix of strings. -/
theorem string_append_cancel_right {a b c : String} (h : a ++ c = b ++ c) : a = b := by
  have h2 : (a ++ c).data = (b ++ c).data := congrArg String.data h
  rw [String.data_append, String.data_append] at h2
  exact String.ext (List.append_cancel_right h2)

end SynthLemmas

section Claims

/-- C1: the claim says a declaration without a namespace yields the composite
default serviceIdentity slash stageIdentity, and a present non-empty namespace
is emitted verbatim. The verbatim half holds, but the default path of the
current revision throws: handler stores the computed default on
this.dynamicNamespace while createAWSMetricResource reads the unbound bare
identifier dynamicNamespace, a ReferenceError. The older revision, whose
dynamicNamespace is a local constant, emits the intended default, confirming
the intent. -/
theorem c1_default_namespace_reference_error :
    errOf (handler simpleNaming c1St) = some "ReferenceError: dynamicNamespace is not defined"
    ∧ namespaceAt (createAWSMetricResource simpleNaming (some stdTable) "getBar" baseOption)
        = some (.str "ns")
    ∧ assocGet (metricTransformation
        (createAWSMetricResourceV2 (fun s => s) "svc" "dev" "getBar" c1Option))
        "MetricNamespace" = some (.str "svc/dev") := by
  refine ⟨?_, ?_, ?_⟩ <;> rfl

/-- C2 counterexample: a declaration that omits defaultValue still produces a
MetricTransformations entry that carries a DefaultValue key, bound to the
undefined value, contradicting the claimed true absence of the key. -/
theorem c2_counterexample :
    baseOption.defaultValue = none
    ∧ (assocGet (metricTransformation demoResBar) "DefaultValue").isSome = true
    ∧ assocGet (metricTransformation demoResBar) "DefaultValue" = some JSValue.undef := by
  refine ⟨rfl, ?_, ?_⟩ <;> rfl

/-- C2 amended: the single transformation entry always carries a DefaultValue
key, bound to the declared value verbatim when present, and bound to the
undefined value when the declaration omits it (so the key only disappears at
JSON serialization time). -/
theorem c2_defaultValue_key {naming : Naming} {resources? : Option ResTable} {f : String}
    {d : MetricOption} {r : AWSResource}
    (h : createAWSMetricResource naming resources? f d = .ok r) :
    assocGet (metricTransformation r) "DefaultValue" = some (jsOf d.defaultValue) := by
  obtain ⟨table, lg, ns, _, _, _, _, hr⟩ := create_ok_inv h
  subst hr
  simp [metricTransformation, assocGet]

/-- C2 witness: the amended statement evaluated on the demo declaration. -/
theorem c2_witness :
    assocGet (metricTransformation demoResBar) "DefaultValue"
      = some (jsOf baseOption.defaultValue) :=
  @c2_defaultValue_key simpleNaming (some stdTable) "getBar" baseOption demoResBar (by rfl)

/-- C3 counterexample: a declaration lacking its required pattern is not
rejected; the pass succeeds and registers a resource whose FilterPattern is
the undefined value, i.e. partial synthesis of an invalid declaration. -/
theorem c3_counterexample :
    patternAt (handler simpleNaming c3St) "getBarMetricFilterfoo" = some JSValue.undef := by
  rfl

/-- C3 amended: the synthesizer performs no required-field validation; a
successful creation copies an absent pattern through as the undefined value,
and an absent name is interpolated as the text undefined into the derived
metric name. -/
theorem c3_missing_fields_flow_through {naming : Naming} {resources? : Option ResTable}
    {f : String} {d : MetricOption} {r : AWSResource}
    (h : createAWSMetricResource naming resources? f d = .ok r) :
    r.Properties.FilterPattern = jsOf d.pattern
    ∧ (d.staticName.getD false = false →
        assocGet (metricTransformation r) "MetricName"
          = some (.str (naming.normalizeName f ++ "-" ++ jsInterp d.name))) := by
  obtain ⟨table, lg, ns, _, _, _, _, hr⟩ := create_ok_inv h
  subst hr
  constructor
  · rfl
  · intro hs
    simp [metricTransformation, assocGet, hs]

/-- C3 witness: the amended statement evaluated on a declaration missing both
required fields. -/
theorem c3_witness :
    c3Res.Properties.FilterPattern = JSValue.undef
    ∧ assocGet (metricTransformation c3Res) "MetricName"
        = some (.str ("getFoo" ++ "-" ++ "undefined")) := by
  have h := @c3_missing_fields_flow_through simpleNaming (some stdTable) "getFoo" c3Option
    c3Res (by rfl)
  exact ⟨h.1, h.2 (by rfl)⟩

/-- C4: a declaration applies to a function exactly when its functions list is
absent or empty, or contains the function name by exact string membership; a
successful synthesis for one function yields one resource per applicable
declaration. -/
theorem c4_applicability (naming : Naming) (resources? : Option ResTable)
    (opts : List MetricOption) (d : MetricOption) (f f' : String) (rs : List AWSResource) :
    (appliesTo d f = true ↔
      (d.functions = none ∨ d.functions = some []
        ∨ ∃ fs, d.functions = some fs ∧ f ∈ fs))
    ∧ (createMetricFilterResources naming resources? opts f = .ok (f', rs) →
        f' = f ∧ rs.length = (opts.filter (fun o => appliesTo o f)).length) := by
  constructor
  · unfold appliesTo
    cases hf : d.functions with
    | none => simp
    | some fs =>
      cases fs with
      | nil => simp
      | cons a as => simp
  · intro h
    obtain ⟨rs2, hpair, hm⟩ := createMFR_ok_inv h
    have h1 : f' = f := (congrArg Prod.fst hpair)
    have h2 : rs = rs2 := (congrArg Prod.snd hpair)
    rw [h2]
    exact ⟨h1, exceptMap_ok_length hm⟩

/-- C4 witness: the applicability equivalence and the per-declaration resource
count evaluated on the restricted demo declaration. -/
theorem c4_witness :
    (appliesTo c4Opt "getBar" = true ↔
      (c4Opt.functions = none ∨ c4Opt.functions = some []
        ∨ ∃ fs, c4Opt.functions = some fs ∧ "getBar" ∈ fs))
    ∧ (c4Pair.1 = "getBar"
        ∧ c4Pair.2.length = ([c4Opt].filter (fun o => appliesTo o "getBar")).length) := by
  have h := c4_applicability simpleNaming (some stdTable) [c4Opt] c4Opt "getBar"
    c4Pair.1 c4Pair.2
  exact ⟨h.1, h.2 (by rfl)⟩

/-- C5: with staticName true the emitted MetricName is the declared name
verbatim, independent of the function; with staticName false or absent it is
the normalized function label, a dash, and the declared name, and it differs
between two functions whenever the host normalization distinguishes them. -/
theorem c5_metric_name (naming : Naming) (resources? : Option ResTable) (d : MetricOption)
    (n : String) (f f₁ f₂ : String) (r r₁ r₂ : AWSResource) (hn : d.name = some n) :
    (createAWSMetricResource naming resources? f d = .ok r →
      ((d.staticName.getD false = true →
          assocGet (metricTransformation r) "MetricName" = some (.str n))
        ∧ (d.staticName.getD false = false →
          assocGet (metricTransformation r) "MetricName"
            = some (.str (naming.normalizeName f ++ "-" ++ n)))))
    ∧ (createAWSMetricResource naming resources? f₁ d = .ok r₁ →
        createAWSMetricResource naming resources? f₂ d = .ok r₂ →
        d.staticName.getD false = false →
        naming.normalizeName f₁ ≠ naming.normalizeName f₂ →
        assocGet (metricTransformation r₁) "MetricName"
          ≠ assocGet (metricTransformation r₂) "MetricName") := by
  constructor
  · intro h
    obtain ⟨table, lg, ns, _, _, _, _, hr⟩ := create_ok_inv h
    subst hr
    constructor
    · intro hs
      simp [metricTransformation, assocGet, hs, hn, jsOf]
    · intro hs
      simp [metricTransformation, assocGet, hs, hn, jsInterp]
  · intro h1 h2 hs hne
    obtain ⟨table1, lg1, ns1, _, _, _, _, hr1⟩ := create_ok_inv h1
    obtain ⟨table2, lg2, ns2, _, _, _, _, hr2⟩ := create_ok_inv h2
    subst hr1
    subst hr2
    have e1 : assocGet (metricTransformation
        ({ __metricOption := some d
         , «Type» := "AWS::Logs::MetricFilter"
         , DependsOn := naming.getLogGroupLogicalId f₁
         , Properties :=
           { FilterPattern := jsOf d.pattern
           , LogGroupName := lg1.Properties.LogGroupName
           , MetricTransformations :=
             [ [ ("MetricName", if d.staticName.getD false then jsOf d.name
                   else .str (naming.normalizeName f₁ ++ "-" ++ jsInterp d.name))
               , ("MetricNamespace", .str ns1)
               , ("MetricValue", .str (d.value.getD "1"))
               , ("DefaultValue", jsOf d.defaultValue) ] ] } } : AWSResource)) "MetricName"
        = some (.str (naming.normalizeName f₁ ++ "-" ++ n)) := by
      simp [metricTransformation, assocGet, hs, hn, jsInterp]
    have e2 : assocGet (metricTransformation
        ({ __metricOption := some d
         , «Type» := "AWS::Logs::MetricFilter"
         , DependsOn := naming.getLogGroupLogicalId f₂
         , Properties :=
           { FilterPattern := jsOf d.pattern
           , LogGroupName := lg2.Properties.LogGroupName
           , MetricTransformations :=
             [ [ ("MetricName", if d.staticName.getD false then jsOf d.name
                   else .str (naming.normalizeName f₂ ++ "-" ++ jsInterp d.name))
               , ("MetricNamespace", .str ns2)
               , ("MetricValue", .str (d.value.getD "1"))
               , ("DefaultValue", jsOf d.defaultValue) ] ] } } : AWSResource)) "MetricName"
        = some (.str (naming.normalizeName f₂ ++ "-" ++ n)) := by
      simp [metricTransformation, assocGet, hs, hn, jsInterp]
    rw [e1, e2]
    intro hcon
    injection hcon with hcon2
    injection hcon2 with hcon3
    exact hne (string_append_cancel_right (string_append_cancel_right hcon3))

/-- C5 witness: the derived-name form and the distinctness of the metric names
of two functions, evaluated on the demo state. -/
theorem c5_witness :
    assocGet (metricTransformation demoResBar) "MetricName"
      = some (.str ("getBar" ++ "-" ++ "err"))
    ∧ assocGet (metricTransformation demoResBar) "MetricName"
        ≠ assocGet (metricTransformation demoResFoo) "MetricName" := by
  have h := c5_metric_name simpleNaming (some stdTable) baseOption "err" "getBar" "getBar"
    "getFoo" demoResBar demoResBar demoResFoo (by rfl)
  exact ⟨(h.1 (by rfl)).2 (by rfl), h.2 (by rfl) (by rfl) (by rfl) (by decide)⟩

/-- C6: registerResource inserts the stripped resource at the
alphanumeric-normalized key and replaces any existing entry unconditionally
while leaving every other key untouched; a successful pass applies to the
table exactly the write list whose keys are the normalization of the
concatenation functionName, the literal MetricFilter, and the declaration
name. -/
theorem c6_registration (naming : Naming) (st : SlsState) (t : ResTable) (st' : SlsState)
    (k : String) (v : AWSResource) (k' : String) :
    (assocGet (tableOf (registerResource naming st k v))
        (naming.normalizeNameToAlphaNumericOnly k) = some (stripMeta v))
    ∧ (k' ≠ naming.normalizeNameToAlphaNumericOnly k →
        assocGet (tableOf (registerResource naming st k v)) k' = assocGet (tableOf st) k')
    ∧ (st.resources = some t → handler naming st = .ok st' →
        st'.resources = some (applyAll t
          (handlerWrites naming st.resources st.metricOptions st.functions))) := by
  refine ⟨?_, ?_, ?_⟩
  · show assocGet (assocSet (st.resources.getD [])
        (naming.normalizeNameToAlphaNumericOnly k) (stripMeta v))
        (naming.normalizeNameToAlphaNumericOnly k) = some (stripMeta v)
    rw [assocGet_assocSet]
    simp
  · intro hne
    show assocGet (assocSet (st.resources.getD [])
        (naming.normalizeNameToAlphaNumericOnly k) (stripMeta v)) k'
        = assocGet (st.resources.getD []) k'
    rw [assocGet_assocSet, if_neg hne]
  · intro ht h
    obtain ⟨pairs, _, hst'⟩ := handler_ok_some ht h
    rw [hst']
    rfl

/-- C6 witness: the three registration facts evaluated on the demo state. -/
theorem c6_witness :
    assocGet (tableOf (registerResource simpleNaming stdSt "rawKey" (logGroupResource "z")))
        "rawKey" = some (stripMeta (logGroupResource "z"))
    ∧ assocGet (tableOf (registerResource simpleNaming stdSt "rawKey" (logGroupResource "z")))
        "getBarLogGroup" = assocGet (tableOf stdSt) "getBarLogGroup"
    ∧ stdRun1.resources = some (applyAll stdTable
        (handlerWrites simpleNaming stdSt.resources stdSt.metricOptions stdSt.functions)) := by
  have h := c6_registration simpleNaming stdSt stdTable stdRun1 "rawKey"
    (logGroupResource "z") "getBarLogGroup"
  exact ⟨h.1, h.2.1 (by decide), h.2.2 rfl (by rfl)⟩

/-- C7: a declaration without a value emits the literal MetricValue one, and a
declared value is emitted verbatim (this holds for the current revision; the
older revision hardcodes the literal). -/
theorem c7_metric_value {naming : Naming} {resources? : Option ResTable} {f : String}
    {d : MetricOption} {r : AWSResource}
    (h : createAWSMetricResource naming resources? f d = .ok r) :
    (d.value = none → assocGet (metricTransformation r) "MetricValue" = some (.str "1"))
    ∧ (∀ v, d.value = some v →
        assocGet (metricTransformation r) "MetricValue" = some (.str v)) := by
  obtain ⟨table, lg, ns, _, _, _, _, hr⟩ := create_ok_inv h
  subst hr
  constructor
  · intro hv
    simp [metricTransformation, assocGet, hv]
  · intro v hv
    simp [metricTransformation, assocGet, hv]

/-- C7 witness: the default and the explicit value evaluated on the demo
declarations. -/
theorem c7_witness :
    assocGet (metricTransformation demoResBar) "MetricValue" = some (.str "1")
    ∧ assocGet (metricTransformation c7Res) "MetricValue" = some (.str "5") := by
  have h1 := @c7_metric_value simpleNaming (some stdTable) "getBar" baseOption demoResBar
    (by rfl)
  have h2 := @c7_metric_value simpleNaming (some stdTable) "getBar" c7Option c7Res (by rfl)
  exact ⟨h1.1 rfl, h2.2 "5" rfl⟩

/-- C8 counterexample: with a host naming under which the metric key of one
function shadows the log-group logical id another function resolves to, the
second run reads the shadowed entry and emits a different LogGroupName, so the
resource table after the second run differs from the table after the first. -/
theorem c8_counterexample : idempotenceCheck c8Naming c8St = some false := by rfl

/-- C8 amended: re-running the pass from the state a successful run produced
yields the same write list (same keys) and leaves the state exactly fixed,
provided no registered key collides with a log-group logical id that the
synthesizer reads for one of the functions. -/
theorem c8_idempotent_when_disjoint (naming : Naming) (st : SlsState) (t : ResTable)
    (st1 : SlsState) (ht : st.resources = some t) (hnd : (t.map Prod.fst).Nodup)
    (hdisj : ∀ f ∈ st.functions, naming.getLogGroupLogicalId f
        ∉ (handlerWrites naming st.resources st.metricOptions st.functions).map Prod.fst)
    (h1 : handler naming st = .ok st1) :
    handlerWrites naming st1.resources st1.metricOptions st1.functions
      = handlerWrites naming st.resources st.metricOptions st.functions
    ∧ handler naming st1 = .ok st1 := by
  obtain ⟨pairs, hm, hst1⟩ := handler_ok_some ht h1
  subst hst1
  have hWW : handlerWrites naming st.resources st.metricOptions st.functions
      = handlerWrites naming (some t) st.metricOptions st.functions := by rw [ht]
  have hdisj' : ∀ f ∈ st.functions, naming.getLogGroupLogicalId f
      ∉ (handlerWrites naming (some t) st.metricOptions st.functions).map Prod.fst := by
    intro f hf
    rw [← hWW]
    exact hdisj f hf
  have hpres : ∀ f ∈ st.functions,
      assocGet (applyAll t (handlerWrites naming (some t) st.metricOptions st.functions))
          (naming.getLogGroupLogicalId f)
        = assocGet t (naming.getLogGroupLogicalId f) := by
    intro f hf
    rw [assocGet_applyAll, lastWrite_eq_none_of_not_mem (hdisj' f hf)]
  have hres1 : (handlerResult naming st t).resources
      = some (applyAll t (handlerWrites naming (some t) st.metricOptions st.functions)) := by
    show some (applyAll t (handlerWrites naming st.resources st.metricOptions st.functions))
      = some (applyAll t (handlerWrites naming (some t) st.metricOptions st.functions))
    rw [hWW]
  have hW2 : handlerWrites naming (handlerResult naming st t).resources
      (handlerResult naming st t).metricOptions (handlerResult naming st t).functions
      = handlerWrites naming st.resources st.metricOptions st.functions := by
    have step1 : handlerWrites naming (handlerResult naming st t).resources
        (handlerResult naming st t).metricOptions (handlerResult naming st t).functions
        = handlerWrites naming (some (applyAll t (handlerWrites naming (some t)
            st.metricOptions st.functions))) st.metricOptions st.functions := by
      show handlerWrites naming (some (applyAll t (handlerWrites naming st.resources
          st.metricOptions st.functions))) st.metricOptions st.functions
        = handlerWrites naming (some (applyAll t (handlerWrites naming (some t)
            st.metricOptions st.functions))) st.metricOptions st.functions
      rw [hWW]
    rw [step1, handlerWrites_congr hpres, ← hWW]
  refine ⟨hW2, ?_⟩
  have hc : ∀ f ∈ st.functions, createMetricFilterResources naming
      (some (applyAll t (handlerWrites naming (some t) st.metricOptions st.functions)))
      st.metricOptions f
      = createMetricFilterResources naming (some t) st.metricOptions f :=
    fun f hf => createMFR_congr (hpres f hf)
  rw [ht] at hm
  have hm2 : exceptMap (fun f => createMetricFilterResources naming
      (some (applyAll t (handlerWrites naming (some t) st.metricOptions st.functions)))
      st.metricOptions f) st.functions = .ok pairs := by
    rw [exceptMap_congr hc]
    exact hm
  have hm3 : exceptMap (fun f => createMetricFilterResources naming
      (handlerResult naming st t).resources (handlerResult naming st t).metricOptions f)
      (handlerResult naming st t).functions = .ok pairs := by
    rw [hres1]
    exact hm2
  have hrun2 := handler_of_pairs hres1 hm3
  rw [hrun2]
  have hw3 : handlerWrites naming (handlerResult naming st t).resources
      (handlerResult naming st t).metricOptions (handlerResult naming st t).functions
      = handlerWrites naming (some t) st.metricOptions st.functions := hW2.trans hWW
  have hfix : handlerResult naming (handlerResult naming st t)
      (applyAll t (handlerWrites naming (some t) st.metricOptions st.functions))
      = handlerResult naming st t := by
    apply SlsState.ext
    · rfl
    · rfl
    · rfl
    · rfl
    · rfl
    · show some (applyAll (applyAll t (handlerWrites naming (some t) st.metricOptions
          st.functions)) (handlerWrites naming (handlerResult naming st t).resources
          (handlerResult naming st t).metricOptions (handlerResult naming st t).functions))
        = some (applyAll t (handlerWrites naming st.resources st.metricOptions st.functions))
      rw [hw3, applyAll_idem hnd, hWW]
  rw [hfix]

/-- C8 witness: the amended statement evaluated on the demo state, whose
metric keys are disjoint from the log-group logical ids. -/
theorem c8_witness :
    handlerWrites simpleNaming stdRun1.resources stdRun1.metricOptions stdRun1.functions
      = handlerWrites simpleNaming stdSt.resources stdSt.metricOptions stdSt.functions
    ∧ handler simpleNaming stdRun1 = .ok stdRun1 :=
  c8_idempotent_when_disjoint simpleNaming stdSt stdTable stdRun1 rfl (by decide)
    (by decide) (by rfl)

/-- C9: the synthesizer leaves the declaration list unchanged, and every entry
of the resulting table is either a pre-existing entry, unchanged, or a
synthesized resource whose transient __metricOption key has been deleted, so
it consists of the Type, DependsOn and Properties fields only. -/
theorem c9_no_metadata (naming : Naming) (st st' : SlsState) (k : String) (r : AWSResource)
    (h : handler naming st = .ok st') :
    st'.metricOptions = st.metricOptions
    ∧ (assocGet (tableOf st') k = some r →
        assocGet (tableOf st) k = some r ∨ r.__metricOption = none) := by
  cases hres : st.resources with
  | none =>
    have hchar := handler_ok_none hres h
    subst hchar
    exact ⟨rfl, fun hk => Or.inl hk⟩
  | some t =>
    obtain ⟨pairs, hm, hst'⟩ := handler_ok_some hres h
    subst hst'
    refine ⟨rfl, fun hk => ?_⟩
    have hk2 : assocGet (applyAll t (handlerWrites naming st.resources st.metricOptions
        st.functions)) k = some r := hk
    rw [assocGet_applyAll] at hk2
    cases hlw : lastWrite (handlerWrites naming st.resources st.metricOptions st.functions) k with
    | some v =>
      rw [hlw] at hk2
      have hk3 : some v = some r := hk2
      injection hk3 with hv
      subst hv
      exact Or.inr (handlerWrites_mem_stripped (lastWrite_mem hlw))
    | none =>
      rw [hlw] at hk2
      refine Or.inl ?_
      show assocGet (st.resources.getD []) k = some r
      rw [hres]
      exact hk2

/-- C9 witness: evaluated on the demo run, the registered entry is the
stripped resource. -/
theorem c9_witness :
    stdRun1.metricOptions = stdSt.metricOptions
    ∧ (assocGet (tableOf stdSt) "getBarMetricFiltererr" = some (stripMeta demoResBar)
        ∨ (stripMeta demoResBar).__metricOption = none) := by
  have h := c9_no_metadata simpleNaming stdSt stdRun1 "getBarMetricFiltererr"
    (stripMeta demoResBar) (by rfl)
  exact ⟨h.1, h.2 (by rfl)⟩

/-- C10: registration never fails on an absent Resources object: the table is
first initialized to an empty mapping, after the call it exists, and it
contains the registered entry at the normalized key. -/
theorem c10_table_init (naming : Naming) (st : SlsState) (k : String) (v : AWSResource) :
    ((registerResource naming st k v).resources).isSome = true
    ∧ assocGet (tableOf (registerResource naming st k v))
        (naming.normalizeNameToAlphaNumericOnly k) = some (stripMeta v)
    ∧ (st.resources = none →
        (registerResource naming st k v).resources
          = some [(naming.normalizeNameToAlphaNumericOnly k, stripMeta v)]) := by
  refine ⟨rfl, ?_, ?_⟩
  · show assocGet (assocSet (st.resources.getD [])
        (naming.normalizeNameToAlphaNumericOnly k) (stripMeta v))
        (naming.normalizeNameToAlphaNumericOnly k) = some (stripMeta v)
    rw [assocGet_assocSet]
    simp
  · intro hres
    rw [registerResource_eq, hres]
    rfl

/-- C10 witness: registering into the demo state with no Resources object
creates the table with exactly the registered entry. -/
theorem c10_witness :
    (registerResource simpleNaming emptySt "k" (logGroupResource "z")).resources
      = some [("k", stripMeta (logGroupResource "z"))] :=
  (c10_table_init simpleNaming emptySt "k" (logGroupResource "z")).2.2 rfl

end Claims

end SPMetric
